import Mathlib

/-!
# Verification of the `fixer` HTTP client library

A shallow embedding of the Go package `github.com/peterhellberg/fixer`
(files `client.go`, `errors.go`, `fixer.go`) together with proofs of its
specified properties.

Conventions of the embedding:
* Go strings are Lean `String`s; `url.Values` (a multimap from keys to
  value lists, where `Get` returns the first value and `Set` replaces all
  values by one) is embedded as an association list in which `get` returns
  the first binding and `set` removes all bindings for the key and appends
  a single fresh one.
* `time.Time` is embedded as an absolute instant (seconds since the Unix
  epoch) together with the zone offset, in seconds east of UTC, of the
  location the value carries.  Go's `Format` renders the *local* calendar
  date, i.e. the civil date of `unixSec + offset`.
* Calls into the Go standard library that the repository treats as an
  opaque collaborator (the HTTP transport, `json.Decode` of the full
  response body, `url.Parse` of a caller-supplied base URL) are passed in
  as explicit arguments, so theorems quantify over their behaviour.
-/

namespace Fixer

/-! ## `url.Values` (net/url), as used by the client -/

/-- Embedding of Go `url.Values`: an association list of key/value pairs.
A key may occur several times (Go stores `map[string][]string`); `get`
reads the first value, as `url.Values.Get` does. -/
abbrev Values := List (String × String)

/-- `url.Values.Get`: first value bound to `k`, or `""` when absent. -/
def Values.get (v : Values) (k : String) : String :=
  match v with
  | [] => ""
  | p :: rest => if p.1 = k then p.2 else Values.get rest k

/-- `url.Values.Set`: drop every binding of `k` and bind it to the single
value `s`. -/
def Values.set (v : Values) (k s : String) : Values :=
  (v.filter (fun p => p.1 ≠ k)) ++ [(k, s)]

/-- The list of keys present in a `Values`. -/
def Values.keys (v : Values) : List String := v.map Prod.fst

/-! ## Error taxonomy (`errors.go`) -/

/-- The errors a call can surface: the four sentinel values declared in
`errors.go`, plus transport errors and JSON-decode errors which the client
propagates unchanged (carrying their message). -/
inductive FixerError
  | errNilResponse
  | errUnexpectedStatus
  | errNotFound
  | errUnprocessableEntity
  | transportError (msg : String)
  | decodeError (msg : String)
  deriving DecidableEq, Repr

/-- An HTTP response as the client sees it: a status code and a body.  The
body type is a parameter; `responseError` never looks at it. -/
structure HttpResponse (β : Type) where
  statusCode : Nat
  body : β
  deriving DecidableEq

/-- The status-code switch inside `responseError` (`errors.go` lines
33–42): 200 ↦ no error, 404 ↦ `ErrNotFound`, 422 ↦
`ErrUnprocessableEntity`, anything else ↦ `ErrUnexpectedStatus`. -/
def responseErrorCode (code : Nat) : Option FixerError :=
  if code = 200 then none
  else if code = 404 then some .errNotFound
  else if code = 422 then some .errUnprocessableEntity
  else some .errUnexpectedStatus

/-- `responseError` (`errors.go` lines 28–43): a nil response yields
`ErrNilResponse`, otherwise the response is classified by its status
code. -/
def responseError {β : Type} (resp : Option (HttpResponse β)) : Option FixerError :=
  match resp with
  | none => some .errNilResponse
  | some r => responseErrorCode r.statusCode

/-! ## Time (`time` package), as used by `At` and `Date`

`time.Time.Format` renders the calendar date of the *local* reading of the
instant, i.e. of `unixSec + offset` where `offset` is the zone offset (in
seconds east of UTC) of the location the value carries.  The civil-date
computation below is a translation of Go's `time.absDate`, with the day
count normalised to days since January 1 of year 1 (the Go zero time);
instants before year 1 are outside the modelled range. -/

/-- An instant together with the zone offset of its location. -/
structure Time where
  unixSec : Int
  offset : Int
  deriving DecidableEq, Repr

/-- `time.Time.UTC`: the same instant, in the UTC location. -/
def Time.utc (t : Time) : Time :=
  { unixSec := t.unixSec, offset := 0 }

/-- Seconds from January 1 of year 1 (00:00 UTC) to the Unix epoch:
`(1969*365 + 1969/4 - 1969/100 + 1969/400) * 86400`. -/
def unixToInternal : Int := 62135596800

/-- Go `daysBefore[m]`: days in a non-leap year before month `m+1`. -/
def daysBefore : Nat → Nat
  | 0 => 0
  | 1 => 31
  | 2 => 59
  | 3 => 90
  | 4 => 120
  | 5 => 151
  | 6 => 181
  | 7 => 212
  | 8 => 243
  | 9 => 273
  | 10 => 304
  | 11 => 334
  | _ => 365

/-- Go `isLeap`. -/
def isLeap (year : Nat) : Bool :=
  year % 4 == 0 && (year % 100 != 0 || year % 400 == 0)

/-- Go `absDate` (month/day part): year, month and day-of-month from a
year and a zero-based day of that year. -/
def dateFromYday (year yday : Nat) : Nat × Nat × Nat :=
  let day? : Option Nat :=
    if isLeap year then
      if yday == 59 then none
      else if yday > 59 then some (yday - 1)
      else some yday
    else some yday
  match day? with
  | none => (year, 2, 29)
  | some day =>
    let month := day / 31
    let endOfMonth := daysBefore (month + 1)
    let (month, begin) :=
      if day ≥ endOfMonth then (month + 1, endOfMonth) else (month, daysBefore month)
    (year, month + 1, day - begin + 1)

/-- Go `absDate` (year part): civil date from a count of days since
January 1 of year 1. -/
def absDate (d : Nat) : Nat × Nat × Nat :=
  let n := d / 146097
  let y := 400 * n
  let d := d - 146097 * n
  let n := d / 36524
  let n := n - n / 4
  let y := y + 100 * n
  let d := d - 36524 * n
  let n := d / 1461
  let y := y + 4 * n
  let d := d - 1461 * n
  let n := d / 365
  let n := n - n / 4
  let y := y + n
  let d := d - 365 * n
  dateFromYday (y + 1) d

/-- Days since January 1 of year 1, of the local reading of `t`
(Go `Time.abs` divided into days: the zone offset is added before the
civil-date computation). -/
def Time.localDays (t : Time) : Nat :=
  ((t.unixSec + t.offset + unixToInternal).toNat) / 86400

/-- A natural number zero-padded on the left to `w` digits. -/
def padNum (w n : Nat) : String :=
  let s := toString n
  String.mk (List.replicate (w - s.length) '0') ++ s

/-- `"YYYY-MM-DD"` rendering of a civil date. -/
def formatYMD (y m d : Nat) : String :=
  padNum 4 y ++ "-" ++ padNum 2 m ++ "-" ++ padNum 2 d

/-- Go `t.Format("2006-01-02")`: the `"YYYY-MM-DD"` rendering of the
civil date of the local reading of `t`. -/
def Time.formatYYYYMMDD (t : Time) : String :=
  let (y, m, d) := absDate t.localDays
  formatYMD y m d

/-! ## Currencies (`fixer.go`) -/

/-- Go `Currency`: an ISO 4217-style code, a plain string. -/
abbrev Currency := String

/-- Go `Currencies`: a sequence of currency codes. -/
abbrev Currencies := List Currency

/-- Go's `<=` on strings: byte-wise lexicographic comparison, which
over valid UTF-8 is the character-list lexicographic order. -/
def goStrLe (a b : String) : Prop := a.toList ≤ b.toList

instance : DecidableRel goStrLe :=
  fun a b => inferInstanceAs (Decidable (a.toList ≤ b.toList))

/-- `Currencies.String` (`fixer.go` lines 97–107): collect the codes,
sort them (`sort.Strings`, embedded as insertion sort on Go's string
order), and join them with commas. -/
def Currencies.string (cs : Currencies) : String :=
  let symbols := cs.map (fun c => c)
  String.intercalate "," (symbols.insertionSort goStrLe)

/-! ## URLs (net/url), for the shapes this client composes

The client builds references of the form `path` or `path?query` (no
scheme, no host) and resolves them against its base URL.  `URL.render`
is `url.URL.String` restricted to the fields this client populates;
`parseRef` is `url.Parse` on such references (split at the first `?`);
`resolveReference` is `url.URL.ResolveReference` for scheme-less
references without dot segments, which are the only ones composed here. -/

structure URL where
  scheme : String
  host : String
  path : String
  rawQuery : String
  deriving DecidableEq, Repr

/-- `url.URL.String` for the fields used here. -/
def URL.render (u : URL) : String :=
  (if u.scheme ≠ "" then u.scheme ++ ":" else "") ++
    (if u.host ≠ "" then "//" ++ u.host else "") ++
    u.path ++
    (if u.rawQuery ≠ "" then "?" ++ u.rawQuery else "")

/-- `url.Values.Encode`: keys in sorted order, `k=v` pairs joined by
`&` (percent-escaping elided: the keys and values composed by this
client are currency codes and access keys). -/
def Values.encode (v : Values) : String :=
  String.intercalate "&"
    ((v.insertionSort (fun p q => goStrLe p.1 q.1)).map
      (fun p => p.1 ++ "=" ++ p.2))

/-- `url.Parse` on a scheme-less, host-less reference: split path and
query at the first `?`. -/
def parseRef (raw : String) : URL :=
  let cs := raw.toList
  { scheme := "", host := "", path := String.mk (cs.takeWhile (fun c => c ≠ '?'))
    rawQuery := String.mk ((cs.dropWhile (fun c => c ≠ '?')).drop 1) }

/-- The directory part of a base path, for relative-path resolution. -/
def dirOf (basePath : String) : String :=
  String.mk ((basePath.toList.reverse.dropWhile (fun c => c ≠ '/')).reverse)

/-- `url.URL.ResolveReference` for the reference shapes composed by this
client (no scheme, no host, no dot segments). -/
def URL.resolveReference (base ref : URL) : URL :=
  if ref.scheme ≠ "" then ref
  else if ref.host ≠ "" then { ref with scheme := base.scheme }
  else if ref.path = "" then { base with rawQuery := ref.rawQuery }
  else if ref.path.toList.head? = some '/' then
    { scheme := base.scheme, host := base.host, path := ref.path
      rawQuery := ref.rawQuery }
  else
    { scheme := base.scheme, host := base.host
      path := dirOf base.path ++ ref.path, rawQuery := ref.rawQuery }

/-! ## Response payload (`fixer.go`)

JSON numbers (the float64 rate values) are carried as rationals; no
arithmetic is ever performed on them by this library. -/

/-- A JSON value, for the body shapes `Date.UnmarshalJSON` can meet. -/
inductive Json
  | null
  | bool (b : Bool)
  | num (n : Rat)
  | str (s : String)
  | arr (elems : List Json)
  | obj (fields : List (String × Json))
  deriving Repr

/-- Go `Date`: a wrapped `time.Time`. -/
structure Date where
  time : Time
  deriving DecidableEq, Repr

/-- The zero value of `time.Time`: January 1, year 1, 00:00:00 UTC. -/
def zeroDate : Date :=
  { time := { unixSec := -unixToInternal, offset := 0 } }

/-- Go `Rates`: rates quoted against the base currency. -/
abbrev Rates := List (Currency × Rat)

/-- Go `Links`: a map from labels to URL strings. -/
abbrev Links := List (String × String)

/-- Go `Response`: the decoded API payload. -/
structure Response where
  base : Currency
  date : Date
  rates : Rates
  links : Links
  deriving DecidableEq, Repr

/-! ## Date parsing (`fixer.go` lines 62–78)

`Date.UnmarshalJSON` first unmarshals the raw JSON value into a Go
string (failing on any non-string JSON shape), then parses it with
`time.ParseInLocation("2006-01-02", value, time.UTC)`.  The layout
`"2006-01-02"` demands exactly four year digits, a literal dash, two
month digits, a literal dash and two day digits, with nothing left
over, and then checks the month and day ranges. -/

/-- `json.Unmarshal` of a JSON value into a Go `string`. -/
def jsonUnmarshalString (j : Json) : Except String String :=
  match j with
  | .str s => .ok s
  | _ => .error "json: cannot unmarshal value into Go value of type string"

/-- Go `daysIn(m, year)`: the number of days of month `m` in `year`. -/
def daysIn (m year : Nat) : Nat :=
  if m == 2 && isLeap year then 29
  else daysBefore m - daysBefore (m - 1)

/-- The numeric value of a two-digit chunk, as Go `getnum` reads it. -/
def num2 (a b : Char) : Nat :=
  10 * (a.toNat - 48) + (b.toNat - 48)

/-- `time.Parse` with layout `"2006-01-02"`, on the character list of
the value: four year digits, `-`, two month digits, `-`, two day
digits, nothing left over; then the range checks Go performs
(`month out of range`, `day out of range for month`). -/
def parseYMDList (cs : List Char) : Except String (Nat × Nat × Nat) :=
  match cs with
  | [y1, y2, y3, y4, s1, m1, m2, s2, d1, d2] =>
    if y1.isDigit && y2.isDigit && y3.isDigit && y4.isDigit && s1 == '-' &&
        m1.isDigit && m2.isDigit && s2 == '-' && d1.isDigit && d2.isDigit then
      let year := 100 * num2 y1 y2 + num2 y3 y4
      let month := num2 m1 m2
      let day := num2 d1 d2
      if month < 1 || month > 12 then .error "month out of range"
      else if day < 1 || day > daysIn month year then
        .error "day out of range for month"
      else .ok (year, month, day)
    else .error "cannot parse"
  | _ => .error "cannot parse"

/-- `time.ParseInLocation("2006-01-02", s, time.UTC)` succeeds on. -/
def parseYMD (s : String) : Except String (Nat × Nat × Nat) :=
  parseYMDList s.toList

/-- Days from the Unix epoch to the civil date `y-m-d` (the standard
era-based civil-calendar formula); `time.Date(y, m, d, 0, 0, 0, 0, UTC)`
has Unix seconds `86400 *` this count. -/
def daysFromCivil (y m d : Int) : Int :=
  let y := if m ≤ 2 then y - 1 else y
  let era := Int.fdiv y 400
  let yoe := y - era * 400
  let doy := (153 * (if m > 2 then m - 3 else m + 9) + 2) / 5 + d - 1
  let doe := yoe * 365 + yoe / 4 - yoe / 100 + doy
  era * 146097 + doe - 719468

/-- `time.Date(y, m, d, 0, 0, 0, 0, time.UTC)` as a `Time`. -/
def mkDateUTC (y m d : Nat) : Time :=
  { unixSec := 86400 * daysFromCivil (Int.ofNat y) (Int.ofNat m) (Int.ofNat d)
    offset := 0 }

/-- `Date.UnmarshalJSON` (`fixer.go` lines 62–78): unmarshal the JSON
value into a string, parse it as `"2006-01-02"` in UTC, and overwrite
the receiver on success; on either failure return the error and leave
the receiver unchanged. -/
def Date.unmarshalJSON (d : Date) (j : Json) : Date × Option String :=
  match jsonUnmarshalString j with
  | .error e => (d, some e)
  | .ok value =>
    match parseYMD value with
    | .error e => (d, some e)
    | .ok (y, m, day) => ({ time := mkDateUTC y m day }, none)

/-! ## Client (`client.go`) -/

/-- The configuration the client keeps of its `*http.Client`. -/
structure HTTPTransport where
  timeoutSeconds : Nat
  deriving DecidableEq, Repr

/-- Go `Client`: transport, base URL, access key, user agent. -/
structure Client where
  httpClient : HTTPTransport
  baseURL : URL
  accessKey : String
  userAgent : String
  deriving DecidableEq, Repr

/-- `NewClient` (`client.go` lines 32–51): the default configuration,
then the option functions applied in order. -/
def NewClient (options : List (Client → Client)) : Client :=
  options.foldl (fun c f => f c)
    { httpClient := { timeoutSeconds := 20 }
      baseURL := { scheme := "http", host := "data.fixer.io", path := "/api", rawQuery := "" }
      accessKey := ""
      userAgent := "fixer/client.go (https://github.com/peterhellberg/fixer)" }

/-- The `HTTPClient` option: replace the transport. -/
def HTTPClient (hc : HTTPTransport) : Client → Client :=
  fun c => { c with httpClient := hc }

/-- The `BaseURL` option (`client.go` lines 61–67): parse the raw URL
(`url.Parse`, the standard library's parser, passed in as `parse`) and
replace the base URL only when parsing succeeds. -/
def BaseURL (parse : String → Option URL) (rawurl : String) : Client → Client :=
  fun c =>
    match parse rawurl with
    | some u => { c with baseURL := u }
    | none => c

/-- The `AccessKey` option: set the access key. -/
def AccessKey (ak : String) : Client → Client :=
  fun c => { c with accessKey := ak }

/-- The `UserAgent` option: set the user agent. -/
def UserAgent (ua : String) : Client → Client :=
  fun c => { c with userAgent := ua }

/-- `Base` (`client.go` lines 84–92): an empty parameter set, with
`base` set to the code when it is non-empty. -/
def Base (c : Currency) : Values :=
  let v : Values := []
  if c ≠ "" then v.set "base" c else v

/-- `Symbols` (`client.go` lines 95–103): an empty parameter set, with
`symbols` set to the serialized currencies when that is non-empty. -/
def Symbols (cs : Currencies) : Values :=
  let v : Values := []
  if Currencies.string cs ≠ "" then v.set "symbols" (Currencies.string cs) else v

/-- One iteration of the merge loop of `Client.query` (`client.go`
lines 141–149): copy the `base` and `symbols` values of one partial set
when they are non-empty. -/
def queryStep (v : Values) (a : Values) : Values :=
  let v1 := if a.get "base" ≠ "" then v.set "base" (a.get "base") else v
  if a.get "symbols" ≠ "" then v1.set "symbols" (a.get "symbols") else v1

/-- `Client.query` (`client.go` lines 138–152): fold the merge loop
over the partial parameter sets, starting from an empty set. -/
def Client.query (_c : Client) (attributes : List Values) : Values :=
  attributes.foldl queryStep []

/-- The access-key injection inside `Client.request` (`client.go` lines
157–159): when an access key is configured, set `access_key` to it. -/
def Client.requestValues (c : Client) (query : Values) : Values :=
  if c.accessKey ≠ "" then query.set "access_key" c.accessKey else query

/-- An outgoing request: its URL and headers. -/
structure Request where
  url : URL
  header : List (String × String)
  deriving DecidableEq, Repr

/-- `Client.request` (`client.go` lines 154–181): compose base path and
path suffix, inject the access key, append the encoded query when
non-empty, parse the reference and resolve it against the base URL,
and attach the `Accept` and `User-Agent` headers.  (For the references
this client composes, `url.Parse` and `http.NewRequest` cannot fail, so
the embedding is total.) -/
def Client.request (c : Client) (path : String) (query : Values) : Request :=
  let rawurl := c.baseURL.path ++ path
  let query := c.requestValues query
  let rawurl := if query.length > 0 then rawurl ++ "?" ++ query.encode else rawurl
  let rel := parseRef rawurl
  { url := c.baseURL.resolveReference rel
    header := [("Accept", "application/json"), ("User-Agent", c.userAgent)] }

/-- `Client.do` (`client.go` lines 183–204), with the transport and the
JSON decoding of the body passed in: a transport error is propagated; a
nil response or an error status is classified by `responseError` (here
with its two cases laid out: `responseError none` is `ErrNilResponse`
and `responseError (some r)` is the status switch); on a success status
the body is decoded, a decode error being propagated.  The result pair
mirrors Go's `(*Response, error)`. -/
def doRequest {β : Type} (exch : Except String (Option (HttpResponse β)))
    (decode : β → Except String Response) : Option Response × Option FixerError :=
  match exch with
  | .error e => (none, some (.transportError e))
  | .ok none => (none, some .errNilResponse)
  | .ok (some resp) =>
    match responseErrorCode resp.statusCode with
    | some e => (none, some e)
    | none =>
      match decode resp.body with
      | .error m => (none, some (.decodeError m))
      | .ok r => (some r, none)

/-- `Client.get` (`client.go` lines 119–136): build the request, run
`do`, and on success overwrite the response's `Links` with the computed
`base` and `self` entries.  (The `(none, none)` case is unreachable:
`doRequest` never produces it.) -/
def Client.get {β : Type} (c : Client) (path : String) (query : Values)
    (exch : Except String (Option (HttpResponse β)))
    (decode : β → Except String Response) : Option Response × Option FixerError :=
  let req := c.request path query
  match doRequest exch decode with
  | (_, some e) => (none, some e)
  | (some r, none) =>
    (some { r with links := [("base", c.baseURL.render), ("self", req.url.render)] }, none)
  | (none, none) => (none, none)

/-- `Client.date` (`client.go` lines 115–117): `t.Format("2006-01-02")`. -/
def Client.date (_c : Client) (t : Time) : String :=
  t.formatYYYYMMDD

/-- `Client.Latest` (`client.go` lines 106–108). -/
def Client.latest {β : Type} (c : Client) (attributes : List Values)
    (exch : Except String (Option (HttpResponse β)))
    (decode : β → Except String Response) : Option Response × Option FixerError :=
  c.get "/latest" (c.query attributes) exch decode

/-- `Client.At` (`client.go` lines 111–113): historical rates, the path
suffix being `"/" ++ c.date t`. -/
def Client.at {β : Type} (c : Client) (t : Time) (attributes : List Values)
    (exch : Except String (Option (HttpResponse β)))
    (decode : β → Except String Response) : Option Response × Option FixerError :=
  c.get ("/" ++ c.date t) (c.query attributes) exch decode

/-! ## Helper lemmas on `Values` -/

theorem Values.get_set_self (v : Values) (k s : String) :
    (v.set k s).get k = s := by
  unfold Values.set
  induction v with
  | nil => simp [Values.get]
  | cons p v ih =>
    rw [List.filter_cons]
    by_cases hp : p.1 = k
    · simpa [hp] using ih
    · simpa [Values.get, hp] using ih

theorem Values.get_set_other (v : Values) (k s h : String) (hne : h ≠ k) :
    (v.set k s).get h = v.get h := by
  unfold Values.set
  induction v with
  | nil => simp [Values.get, Ne.symm hne]
  | cons p v ih =>
    rw [List.filter_cons]
    by_cases hp : p.1 = k
    · have hph : p.1 ≠ h := by rw [hp]; exact fun hkh => hne hkh.symm
      simpa [Values.get, hp, hph, hne, Ne.symm hne] using ih
    · by_cases hq : p.1 = h
      · simp [Values.get, hp, hq, hne]
      · simpa [Values.get, hp, hq, hne] using ih

theorem Values.mem_keys_set (v : Values) (k s h : String)
    (hm : h ∈ (v.set k s).keys) : h ∈ v.keys ∨ h = k := by
  unfold Values.set Values.keys at hm
  rw [List.map_append, List.mem_append] at hm
  rcases hm with hm | hm
  · left
    unfold Values.keys
    obtain ⟨p, hp, hph⟩ := List.mem_map.mp hm
    exact List.mem_map.mpr ⟨p, (List.mem_filter.mp hp).1, hph⟩
  · right
    simpa using hm

/-! ## C1: status-only response classification -/

/-- C1: `responseError` classifies a response by HTTP status code alone:
a nil response yields `ErrNilResponse`, status 200 yields no error, 404
yields `ErrNotFound`, 422 yields `ErrUnprocessableEntity`, and every
other status code (including 0) yields `ErrUnexpectedStatus`; the
mapping is total (it is a total function) and never inspects the body
(responses differing only in body classify identically, for an
arbitrary body type). -/
theorem c1_responseError_classification {β : Type} :
    responseError (β := β) none = some FixerError.errNilResponse
  ∧ (∀ r : HttpResponse β, r.statusCode = 200 → responseError (some r) = none)
  ∧ (∀ r : HttpResponse β, r.statusCode = 404 →
      responseError (some r) = some FixerError.errNotFound)
  ∧ (∀ r : HttpResponse β, r.statusCode = 422 →
      responseError (some r) = some FixerError.errUnprocessableEntity)
  ∧ (∀ r : HttpResponse β, r.statusCode ≠ 200 → r.statusCode ≠ 404 →
      r.statusCode ≠ 422 → responseError (some r) = some FixerError.errUnexpectedStatus)
  ∧ (∀ b : β, responseError (some { statusCode := 0, body := b })
      = some FixerError.errUnexpectedStatus)
  ∧ (∀ (code : Nat) (b b' : β),
      responseError (some { statusCode := code, body := b })
        = responseError (some { statusCode := code, body := b' })) := by
  refine ⟨rfl, ?_, ?_, ?_, ?_, ?_, ?_⟩ <;> intros <;>
    simp_all [responseError, responseErrorCode]

/-- C1 witness: the classification evaluated at statuses 404, 500 and
200 with a unit body. -/
theorem c1_witness :
    responseError (some { statusCode := 404, body := () }) = some FixerError.errNotFound
  ∧ responseError (some { statusCode := 500, body := () })
      = some FixerError.errUnexpectedStatus
  ∧ responseError (some { statusCode := 200, body := () }) = none :=
  ⟨c1_responseError_classification.2.2.1 _ rfl,
   c1_responseError_classification.2.2.2.2.1 _ (by decide) (by decide) (by decide),
   c1_responseError_classification.2.1 _ rfl⟩

/-! ## C2: the date used by `At`

The claim states that `At` uses the UTC-projected calendar date of `t`.
The code calls `t.Format("2006-01-02")`, and Go's `Format` renders the
date in the *location `t` carries*, not in UTC: a caller passing a
non-UTC time gets its local calendar date.  The two dates differ
whenever the zone offset moves the instant across midnight. -/

/-- C2 counterexample: for the instant `1970-01-01T00:00:00Z` carried in
a fixed zone one hour west of UTC (offset −3600 s), `At`'s path suffix
uses `"1969-12-31"` — the local calendar date — while the UTC-projected
calendar date of the same time value is `"1970-01-01"`. -/
theorem c2_counterexample :
    Client.date (NewClient []) { unixSec := 0, offset := -3600 } = "1969-12-31"
  ∧ Client.date (NewClient []) (Time.utc { unixSec := 0, offset := -3600 }) = "1970-01-01"
  ∧ Client.date (NewClient []) { unixSec := 0, offset := -3600 }
      ≠ Client.date (NewClient []) (Time.utc { unixSec := 0, offset := -3600 })
  ∧ Client.at (NewClient []) { unixSec := 0, offset := -3600 } []
        (Except.error "network down") (fun _ : Unit => Except.error "unused")
      = Client.get (NewClient []) "/1969-12-31" []
        (Except.error "network down") (fun _ : Unit => Except.error "unused") := by
  exact ⟨by decide, by decide, by decide, rfl⟩

/-- C2 (amended): for every time value `t`, `At` uses as path suffix the
`"YYYY-MM-DD"` calendar date of `t` read in the location `t` carries
(the civil date of `unixSec + offset`, equivalently the UTC calendar
date of the instant shifted by the zone offset); when `t` is already in
UTC (offset 0) this is the UTC-projected calendar date. -/
theorem c2_at_uses_local_date {β : Type} (c : Client) (t : Time) (attrs : List Values)
    (exch : Except String (Option (HttpResponse β)))
    (decode : β → Except String Response) :
    Client.at c t attrs exch decode
      = Client.get c ("/" ++ Time.formatYYYYMMDD t) (c.query attrs) exch decode
  ∧ Time.formatYYYYMMDD t
      = Time.formatYYYYMMDD { unixSec := t.unixSec + t.offset, offset := 0 }
  ∧ (t.offset = 0 → Time.formatYYYYMMDD t = Time.formatYYYYMMDD t.utc) := by
  refine ⟨rfl, ?_, fun h => ?_⟩
  · have harg : t.unixSec + t.offset + 0 = t.unixSec + t.offset := by ring
    simp only [Time.formatYYYYMMDD, Time.localDays, harg]
  · have harg : t.unixSec + t.offset = t.unixSec + 0 := by rw [h]
    simp only [Time.formatYYYYMMDD, Time.localDays, Time.utc, harg]

/-- C2 witness: the amended statement evaluated at the UTC instant
`2016-02-12T00:00:00Z` for the default client with no attributes. -/
theorem c2_witness :
    Client.at (NewClient []) { unixSec := 1455235200, offset := 0 } []
        (Except.error "down") (fun _ : Unit => Except.error "unused")
      = Client.get (NewClient []) ("/" ++ Time.formatYYYYMMDD { unixSec := 1455235200, offset := 0 })
        ((NewClient []).query []) (Except.error "down") (fun _ : Unit => Except.error "unused")
  ∧ Time.formatYYYYMMDD { unixSec := 1455235200, offset := 0 }
      = Time.formatYYYYMMDD (Time.utc { unixSec := 1455235200, offset := 0 }) :=
  ⟨(c2_at_uses_local_date (NewClient []) { unixSec := 1455235200, offset := 0 } []
      (Except.error "down") (fun _ : Unit => Except.error "unused")).1,
   (c2_at_uses_local_date (NewClient []) { unixSec := 1455235200, offset := 0 } []
      (Except.error "down") (fun _ : Unit => Except.error "unused")).2.2 rfl⟩

/-! ## C7: sorted, comma-joined currency serialization -/

instance : IsAntisymm String goStrLe :=
  ⟨fun a b hab hba =>
    le_antisymm (String.le_iff_toList_le.mpr hab) (String.le_iff_toList_le.mpr hba)⟩

instance : IsTotal String goStrLe :=
  ⟨fun a b => le_total a.toList b.toList⟩

instance : IsTrans String goStrLe :=
  ⟨fun _ _ _ hab hbc => le_trans hab hbc⟩

/-- C7: `Currencies.String` is the comma-join of the lexicographically
sorted list of the codes — invariant under reordering of the input, and
equal to `String.intercalate ","` of a sorted permutation of the input
(so duplicates pass through, with no deduplication); the empty sequence
serializes to the empty string, `{SEK, DKK}` to `"DKK,SEK"` and the
duplicated `{SEK, SEK}` to `"SEK,SEK"`. -/
theorem c7_currencies_sorted_join :
    (∀ cs cs' : Currencies, cs.Perm cs' → Currencies.string cs = Currencies.string cs')
  ∧ (∀ cs : Currencies, ∃ l : List String, l.Perm cs ∧ l.Sorted (· ≤ ·)
      ∧ Currencies.string cs = String.intercalate "," l)
  ∧ Currencies.string [] = ""
  ∧ Currencies.string ["SEK", "DKK"] = "DKK,SEK"
  ∧ Currencies.string ["SEK", "SEK"] = "SEK,SEK" := by
  refine ⟨?_, ?_, rfl, by decide, by decide⟩
  · intro cs cs' h
    have hs : List.insertionSort goStrLe (cs.map (fun c => c))
        = List.insertionSort goStrLe (cs'.map (fun c => c)) := by
      refine List.eq_of_perm_of_sorted (r := goStrLe) ?_ (List.sorted_insertionSort _ _)
        (List.sorted_insertionSort _ _)
      refine (List.perm_insertionSort _ _).trans (.trans ?_ (List.perm_insertionSort _ _).symm)
      simpa using h
    simp only [Currencies.string, hs]
  · intro cs
    refine ⟨(cs.map (fun c => c)).insertionSort goStrLe, ?_, ?_, rfl⟩
    · simpa using List.perm_insertionSort goStrLe (cs.map (fun c => c))
    · exact (List.sorted_insertionSort goStrLe _).imp
        (fun hab => String.le_iff_toList_le.mpr hab)

/-- C7 witness: reordering `{SEK, DKK}` to `{DKK, SEK}` leaves the
serialization unchanged. -/
theorem c7_witness :
    Currencies.string ["SEK", "DKK"] = Currencies.string ["DKK", "SEK"] :=
  c7_currencies_sorted_join.1 _ _ (by decide)

/-! ## C8: the `Base` and `Symbols` builders -/

/-- C8: `Base c` is exactly the single-entry set `base = c` for a
non-empty code and the empty set for the empty code; `Symbols cs` is
exactly `symbols = serialization of cs` when that serialization is
non-empty and the empty set otherwise, in particular for the empty
input. -/
theorem c8_builders :
    (∀ c : Currency, c ≠ "" → Base c = [("base", c)])
  ∧ Base "" = []
  ∧ (∀ cs : Currencies, Currencies.string cs ≠ "" →
      Symbols cs = [("symbols", Currencies.string cs)])
  ∧ (∀ cs : Currencies, Currencies.string cs = "" → Symbols cs = [])
  ∧ Symbols [] = [] := by
  refine ⟨?_, rfl, ?_, ?_, rfl⟩
  · intro c hc
    simp [Base, hc, Values.set]
  · intro cs h
    simp [Symbols, h, Values.set]
  · intro cs h
    simp [Symbols, h]

/-- C8 witness: `Base` and `Symbols` evaluated at `"SEK"` and
`{USD, GBP}`. -/
theorem c8_witness :
    Base "SEK" = [("base", "SEK")]
  ∧ Symbols ["USD", "GBP"] = [("symbols", "GBP,USD")] := by
  refine ⟨c8_builders.1 "SEK" (by decide), ?_⟩
  rw [c8_builders.2.2.1 ["USD", "GBP"] (by decide)]
  decide

/-! ## C9: the `BaseURL` option is best-effort and frame-preserving -/

/-- C9: for every raw string handed to the `BaseURL` option (with the
standard library's `url.Parse` abstracted as `parse`), a successful
parse replaces the client's base URL by the parsed value, a failed
parse leaves the client completely unchanged and raises no error, and
in either case every other field (transport, access key, user agent) is
untouched. -/
theorem c9_baseURL_option (parse : String → Option URL) (rawurl : String) (c : Client) :
    (∀ u, parse rawurl = some u → BaseURL parse rawurl c = { c with baseURL := u })
  ∧ (parse rawurl = none → BaseURL parse rawurl c = c)
  ∧ (BaseURL parse rawurl c).httpClient = c.httpClient
  ∧ (BaseURL parse rawurl c).accessKey = c.accessKey
  ∧ (BaseURL parse rawurl c).userAgent = c.userAgent := by
  refine ⟨?_, ?_, ?_, ?_, ?_⟩
  · intro u h
    simp [BaseURL, h]
  · intro h
    simp [BaseURL, h]
  all_goals unfold BaseURL
  all_goals cases parse rawurl <;> rfl

/-- C9 witness: the option evaluated on the default client, once with a
parser that succeeds and once with one that fails. -/
theorem c9_witness :
    BaseURL
        (fun _ => some { scheme := "https", host := "api.exchangeratesapi.io", path := "", rawQuery := "" })
        "https://api.exchangeratesapi.io" (NewClient [])
      = { (NewClient []) with
          baseURL := { scheme := "https", host := "api.exchangeratesapi.io", path := "", rawQuery := "" } }
  ∧ BaseURL (fun _ => none) "%zz" (NewClient []) = NewClient [] :=
  ⟨(c9_baseURL_option _ _ _).1 _ rfl, (c9_baseURL_option _ _ _).2.1 rfl⟩

/-! ## The merge loop of `Client.query` -/

theorem queryStep_get_base (v a : Values) :
    (queryStep v a).get "base"
      = if a.get "base" ≠ "" then a.get "base" else v.get "base" := by
  unfold queryStep
  by_cases hb : a.get "base" = "" <;> by_cases hs : a.get "symbols" = "" <;>
    simp [hb, hs, Values.get_set_self, Values.get_set_other _ _ _ _ (by decide : ("base" : String) ≠ "symbols")]

theorem queryStep_get_symbols (v a : Values) :
    (queryStep v a).get "symbols"
      = if a.get "symbols" ≠ "" then a.get "symbols" else v.get "symbols" := by
  unfold queryStep
  by_cases hb : a.get "base" = "" <;> by_cases hs : a.get "symbols" = "" <;>
    simp [hb, hs, Values.get_set_self, Values.get_set_other _ _ _ _ (by decide : ("symbols" : String) ≠ "base")]

theorem queryStep_keys (v a : Values) (k : String)
    (hm : k ∈ (queryStep v a).keys) : k ∈ v.keys ∨ k = "base" ∨ k = "symbols" := by
  unfold queryStep at hm
  split_ifs at hm
  · rcases Values.mem_keys_set _ _ _ _ hm with h | h
    · rcases Values.mem_keys_set _ _ _ _ h with h2 | h2
      · exact Or.inl h2
      · exact Or.inr (Or.inl h2)
    · exact Or.inr (Or.inr h)
  · rcases Values.mem_keys_set _ _ _ _ hm with h | h
    · exact Or.inl h
    · exact Or.inr (Or.inl h)
  · rcases Values.mem_keys_set _ _ _ _ hm with h | h
    · exact Or.inl h
    · exact Or.inr (Or.inr h)
  · exact Or.inl hm

theorem foldl_queryStep_keys (as : List Values) (v : Values) (k : String)
    (hm : k ∈ (as.foldl queryStep v).keys) :
    k ∈ v.keys ∨ k = "base" ∨ k = "symbols" := by
  induction as generalizing v with
  | nil => exact Or.inl hm
  | cons a as ih =>
    rw [List.foldl_cons] at hm
    rcases ih (queryStep v a) hm with h | h
    · exact queryStep_keys v a k h
    · exact Or.inr h

theorem getLast_filter_cons (x : String) (l : List String) (d : String) :
    (((x :: l).filter (fun s => s ≠ "")).getLast?).getD d
      = ((l.filter (fun s => s ≠ "")).getLast?).getD (if x ≠ "" then x else d) := by
  by_cases hx : x = ""
  · simp [List.filter_cons, hx]
  · rw [List.filter_cons]
    rw [if_pos (by simpa using hx), if_pos hx]
    cases hfl : l.filter (fun s => s ≠ "") with
    | nil => simp [hfl]
    | cons y ys =>
      rw [List.getLast?_cons_cons]
      cases h2 : (y :: ys).getLast? with
      | none => simp at h2
      | some z => rfl

theorem foldl_queryStep_get_base (as : List Values) (v : Values) :
    (as.foldl queryStep v).get "base"
      = (((as.map (fun a => a.get "base")).filter (fun s => s ≠ "")).getLast?).getD
          (v.get "base") := by
  induction as generalizing v with
  | nil => simp
  | cons a as ih =>
    rw [List.foldl_cons, ih (queryStep v a), queryStep_get_base, List.map_cons,
      getLast_filter_cons]

theorem foldl_queryStep_get_symbols (as : List Values) (v : Values) :
    (as.foldl queryStep v).get "symbols"
      = (((as.map (fun a => a.get "symbols")).filter (fun s => s ≠ "")).getLast?).getD
          (v.get "symbols") := by
  induction as generalizing v with
  | nil => simp
  | cons a as ih =>
    rw [List.foldl_cons, ih (queryStep v a), queryStep_get_symbols, List.map_cons,
      getLast_filter_cons]

/-! ## C10: empty values never clear a merged value -/

/-- C10: in the merged query, the `base` (resp. `symbols`) entry equals
the last non-empty `base` (resp. `symbols`) value among the input
partial sets — an input set whose value is absent or empty (its `Get`
yields `""`) is skipped and cannot clear an earlier merged value; when
no input carries a non-empty value the merged value is absent (`Get`
yields `""`). -/
theorem c10_merge_last_nonempty_wins (c : Client) (attrs : List Values) :
    (c.query attrs).get "base"
      = (((attrs.map (fun a => a.get "base")).filter (fun s => s ≠ "")).getLast?).getD ""
  ∧ (c.query attrs).get "symbols"
      = (((attrs.map (fun a => a.get "symbols")).filter (fun s => s ≠ "")).getLast?).getD "" := by
  unfold Client.query
  constructor
  · rw [foldl_queryStep_get_base]
    rfl
  · rw [foldl_queryStep_get_symbols]
    rfl

/-! ## C3: the merged query is a narrow whitelist plus the access key -/

/-- C3: the merged query holds only `base` and `symbols` keys, with
values taken from the corresponding keys of the input partial sets
(every other key of any input set is dropped); the query sent by
`request` additionally holds `access_key` exactly when the configured
access key is non-empty, set to the configured key — which therefore
takes precedence over any caller-supplied `access_key` value, since the
merge never lets one through. -/
theorem c3_query_whitelist (c : Client) (attrs : List Values) :
    (∀ k, k ∈ (c.query attrs).keys → k = "base" ∨ k = "symbols")
  ∧ ((c.query attrs).get "base" ≠ "" →
      ∃ a ∈ attrs, a.get "base" = (c.query attrs).get "base")
  ∧ ((c.query attrs).get "symbols" ≠ "" →
      ∃ a ∈ attrs, a.get "symbols" = (c.query attrs).get "symbols")
  ∧ (c.accessKey ≠ "" →
      (c.requestValues (c.query attrs)).get "access_key" = c.accessKey)
  ∧ (c.accessKey = "" → c.requestValues (c.query attrs) = c.query attrs)
  ∧ (∀ k, k ∈ (c.requestValues (c.query attrs)).keys →
      k = "base" ∨ k = "symbols" ∨ k = "access_key") := by
  have hkeys : ∀ k, k ∈ (c.query attrs).keys → k = "base" ∨ k = "symbols" := by
    intro k hk
    rcases foldl_queryStep_keys attrs [] k hk with h | h
    · simp [Values.keys] at h
    · exact h
  have hval : ∀ key : String, (c.query attrs).get key
        = (((attrs.map (fun a => a.get key)).filter (fun s => s ≠ "")).getLast?).getD ""
      → (c.query attrs).get key ≠ ""
      → ∃ a ∈ attrs, a.get key = (c.query attrs).get key := by
    intro key hchar hne
    rw [hchar] at hne ⊢
    cases hlast : ((attrs.map (fun a => a.get key)).filter (fun s => s ≠ "")).getLast? with
    | none => rw [hlast] at hne; simp at hne
    | some x =>
      have hx : x ∈ (attrs.map (fun a => a.get key)).filter (fun s => s ≠ "") :=
        List.mem_of_mem_getLast? hlast
      have hx2 : x ∈ attrs.map (fun a => a.get key) := (List.mem_filter.mp hx).1
      obtain ⟨a, ha, hax⟩ := List.mem_map.mp hx2
      exact ⟨a, ha, by simp [hax, hlast]⟩
  refine ⟨hkeys, ?_, ?_, ?_, ?_, ?_⟩
  · refine hval "base" ?_
    unfold Client.query
    rw [foldl_queryStep_get_base]
    rfl
  · refine hval "symbols" ?_
    unfold Client.query
    rw [foldl_queryStep_get_symbols]
    rfl
  · intro h
    unfold Client.requestValues
    rw [if_pos h, Values.get_set_self]
  · intro h
    unfold Client.requestValues
    rw [if_neg (by simpa using h)]
  · intro k hk
    unfold Client.requestValues at hk
    by_cases h : c.accessKey = ""
    · rw [if_neg (by simpa using h)] at hk
      rcases hkeys k hk with h2 | h2
      · exact Or.inl h2
      · exact Or.inr (Or.inl h2)
    · rw [if_pos (by simpa using h)] at hk
      rcases Values.mem_keys_set _ _ _ _ hk with h2 | h2
      · rcases hkeys k h2 with h3 | h3
        · exact Or.inl h3
        · exact Or.inr (Or.inl h3)
      · exact Or.inr (Or.inr h2)

/-- C3 witness: the whitelist and access-key injection evaluated with a
configured key `"secret"`, a `Base SEK` set, a junk key that is dropped
and a caller-supplied `access_key` that is overridden. -/
theorem c3_witness :
    ((NewClient [AccessKey "secret"]).requestValues
        ((NewClient [AccessKey "secret"]).query
          [Base "SEK", [("junk", "x"), ("access_key", "attacker")]])).get "access_key"
      = "secret"
  ∧ ∃ a ∈ [Base "SEK", [("junk", "x"), ("access_key", "attacker")]],
      a.get "base" = ((NewClient [AccessKey "secret"]).query
        [Base "SEK", [("junk", "x"), ("access_key", "attacker")]]).get "base" :=
  ⟨(c3_query_whitelist _ _).2.2.2.1 (by decide),
   (c3_query_whitelist _ _).2.1 (by decide)⟩

/-! ## C4 and C5: the transport/decode pipeline -/

theorem doRequest_cases {β : Type} (exch : Except String (Option (HttpResponse β)))
    (decode : β → Except String Response) :
    (∃ r, doRequest exch decode = (some r, none))
      ∨ (∃ e, doRequest exch decode = (none, some e)) := by
  unfold doRequest
  rcases exch with e | oresp
  · exact Or.inr ⟨_, rfl⟩
  rcases oresp with _ | resp
  · exact Or.inr ⟨_, rfl⟩
  rcases h : responseErrorCode resp.statusCode with _ | e
  · rcases hd : decode resp.body with m | r
    · exact Or.inr ⟨FixerError.decodeError m, by simp [h, hd]⟩
    · exact Or.inl ⟨r, by simp [h, hd]⟩
  · exact Or.inr ⟨e, by simp [h]⟩

theorem get_success_links {β : Type} (c : Client) (path : String) (q : Values)
    (exch : Except String (Option (HttpResponse β)))
    (decode : β → Except String Response) (r : Response)
    (h : Client.get c path q exch decode = (some r, none)) :
    r.links = [("base", c.baseURL.render), ("self", (c.request path q).url.render)] := by
  unfold Client.get at h
  rcases hdo : doRequest exch decode with ⟨or, oe⟩
  rcases or with _ | r0 <;> rcases oe with _ | e <;> rw [hdo] at h <;> simp at h
  rw [← h]

/-- C4: every successful `Latest` or `At` call returns a `Response`
whose `Links` are exactly the two entries `base` (the configured base
URL string) and `self` (the fully resolved request URL string,
including query parameters) — independent of whatever `links` the
decoded body carried, since the claim holds for every decoder. -/
theorem c4_links_overwritten {β : Type} (c : Client) (attrs : List Values) (t : Time)
    (exch : Except String (Option (HttpResponse β)))
    (decode : β → Except String Response) :
    (∀ r : Response, c.latest attrs exch decode = (some r, none) →
      r.links = [("base", c.baseURL.render),
        ("self", (c.request "/latest" (c.query attrs)).url.render)]
      ∧ r.links.length = 2)
  ∧ (∀ r : Response, Client.at c t attrs exch decode = (some r, none) →
      r.links = [("base", c.baseURL.render),
        ("self", (c.request ("/" ++ c.date t) (c.query attrs)).url.render)]
      ∧ r.links.length = 2) := by
  constructor
  · intro r h
    have := get_success_links c "/latest" (c.query attrs) exch decode r h
    exact ⟨this, by simp [this]⟩
  · intro r h
    have := get_success_links c ("/" ++ c.date t) (c.query attrs) exch decode r h
    exact ⟨this, by simp [this]⟩

/-- C4 witness: a successful `Latest` call on the default client whose
body decoded to a response carrying a bogus `links` entry; the returned
links are the two computed entries. -/
theorem c4_witness :
    ({ base := "EUR", date := zeroDate, rates := [("SEK", (9 : Rat))],
       links := [("base", "http://data.fixer.io/api"),
         ("self", "http://data.fixer.io/api/latest")] } : Response).links
      = [("base", (NewClient []).baseURL.render),
         ("self", ((NewClient []).request "/latest" ((NewClient []).query [])).url.render)]
  ∧ ([("base", "http://data.fixer.io/api"),
       ("self", "http://data.fixer.io/api/latest")] : Links).length = 2 :=
  (c4_links_overwritten (NewClient []) [] { unixSec := 0, offset := 0 }
      (Except.ok (some { statusCode := 200, body := () }))
      (fun _ => Except.ok
        { base := "EUR", date := zeroDate, rates := [("SEK", (9 : Rat))],
          links := [("links", "from-body")] })).1
    _ (by decide)

/-- C5: every `Latest`/`At` call returns exactly one of a response with
no error or no response with an error (never both, never neither); and
when the status classification yields an error, `do` returns exactly
that error for every decoder — the body is never decoded. -/
theorem c5_total_exclusive {β : Type} :
    (∀ (c : Client) (attrs : List Values) (t : Time)
        (exch : Except String (Option (HttpResponse β)))
        (decode : β → Except String Response),
      ((∃ r, c.latest attrs exch decode = (some r, none))
        ∨ (∃ e, c.latest attrs exch decode = (none, some e)))
      ∧ ((∃ r, Client.at c t attrs exch decode = (some r, none))
        ∨ (∃ e, Client.at c t attrs exch decode = (none, some e))))
  ∧ (∀ (oresp : Option (HttpResponse β)) (e : FixerError)
        (decode : β → Except String Response),
      responseError oresp = some e →
      doRequest (Except.ok oresp) decode = (none, some e)) := by
  have hget : ∀ (c : Client) (path : String) (q : Values)
      (exch : Except String (Option (HttpResponse β)))
      (decode : β → Except String Response),
      (∃ r, Client.get c path q exch decode = (some r, none))
        ∨ (∃ e, Client.get c path q exch decode = (none, some e)) := by
    intro c path q exch decode
    rcases doRequest_cases exch decode with ⟨r, h⟩ | ⟨e, h⟩
    · exact Or.inl ⟨_, by unfold Client.get; rw [h]⟩
    · exact Or.inr ⟨e, by unfold Client.get; rw [h]⟩
  refine ⟨fun c attrs t exch decode => ⟨hget c _ _ exch decode, hget c _ _ exch decode⟩, ?_⟩
  intro oresp e decode h
  rcases oresp with _ | resp
  · simp only [responseError, Option.some.injEq] at h
    simp [doRequest, ← h]
  · simp only [responseError] at h
    simp [doRequest, h]

/-- C5 witness: a 404 response is returned as `ErrNotFound` without
consulting the decoder. -/
theorem c5_witness :
    doRequest (Except.ok (some { statusCode := 404, body := () }))
        (fun _ => Except.error "decoder must not run")
      = (none, some FixerError.errNotFound) :=
  c5_total_exclusive.2 (some { statusCode := 404, body := () }) FixerError.errNotFound
    (fun _ => Except.error "decoder must not run") rfl

/-! ## C6: the shape `Date.UnmarshalJSON` accepts

The claim says unmarshalling succeeds exactly on JSON string literals in
`"YYYY-MM-DD"` form.  The definitions below spell out that form in the
spec's own words — ten characters, digits in the year/month/day slots,
dashes between them, and a valid calendar date — independently of the
parser embedded from the code, so that the equivalence is a real
statement about the parser. -/

/-- Spec-side leap-year rule (divisible by 4 and not by 100, or
divisible by 400). -/
def specIsLeap (y : Nat) : Bool :=
  (y % 4 == 0 && y % 100 != 0) || y % 400 == 0

/-- Spec-side month length. -/
def specMonthLen (m y : Nat) : Nat :=
  if m == 2 then (if specIsLeap y then 29 else 28)
  else if m == 4 || m == 6 || m == 9 || m == 11 then 30
  else 31

/-- All characters are decimal digits. -/
def specDigits (cs : List Char) : Bool := cs.all (fun c => c.isDigit)

/-- The number denoted by a list of decimal digits. -/
def specNatOf (cs : List Char) : Nat :=
  cs.foldl (fun n c => 10 * n + (c.toNat - 48)) 0

/-- Spec-side well-formedness of a `"YYYY-MM-DD"` date, on the character
list: ten characters, dashes at positions 4 and 7, digits elsewhere, and
a valid calendar date. -/
def specIsYMDList (cs : List Char) : Bool :=
  cs.length == 10 && cs[4]? == some '-' && cs[7]? == some '-' &&
    specDigits (cs.take 4) && specDigits ((cs.drop 5).take 2) && specDigits (cs.drop 8) &&
    (let y := specNatOf (cs.take 4)
     let m := specNatOf ((cs.drop 5).take 2)
     let d := specNatOf (cs.drop 8)
     decide (1 ≤ m) && decide (m ≤ 12) && decide (1 ≤ d) && decide (d ≤ specMonthLen m y))

/-- Spec-side well-formedness of a `"YYYY-MM-DD"` date string. -/
def specIsYMD (s : String) : Bool := specIsYMDList s.toList

/-- The year, month and day fields read off a `"YYYY-MM-DD"` string. -/
def specYMDof (s : String) : Nat × Nat × Nat :=
  let cs := s.toList
  (specNatOf (cs.take 4), specNatOf ((cs.drop 5).take 2), specNatOf (cs.drop 8))

theorem specIsLeap_eq_isLeap (y : Nat) : specIsLeap y = isLeap y := by
  unfold specIsLeap isLeap
  have hc : (y % 400 == 0) = true → (y % 4 == 0) = true := by
    intro h
    have h0 : y % 400 = 0 := by simpa using h
    have h1 : y % 4 = 0 := by omega
    simpa using h1
  cases h4 : (y % 4 == 0) <;> cases h100 : (y % 100 != 0) <;>
    cases h400 : (y % 400 == 0) <;> simp_all

theorem daysIn_eq_specMonthLen (m y : Nat) (h1 : 1 ≤ m) (h2 : m ≤ 12) :
    daysIn m y = specMonthLen m y := by
  interval_cases m <;>
    first
      | rfl
      | (cases h : isLeap y <;>
          simp [daysIn, specMonthLen, daysBefore, specIsLeap_eq_isLeap, h])

theorem parseYMDList_ok_iff (cs : List Char) :
    (∃ ymd, parseYMDList cs = Except.ok ymd) ↔ specIsYMDList cs = true := by
  rcases cs with _ | ⟨c0, _ | ⟨c1, _ | ⟨c2, _ | ⟨c3, _ | ⟨c4, _ | ⟨c5, _ | ⟨c6, _ | ⟨c7, _ | ⟨c8, _ | ⟨c9, _ | ⟨c10, rest⟩⟩⟩⟩⟩⟩⟩⟩⟩⟩⟩
  case cons.cons.cons.cons.cons.cons.cons.cons.cons.cons.nil =>
    have hym : specNatOf [c0, c1, c2, c3] = 100 * num2 c0 c1 + num2 c2 c3 := by
      simp [specNatOf, num2]
      ring
    have hmm : specNatOf [c5, c6] = num2 c5 c6 := by
      simp [specNatOf, num2]
    have hdm : specNatOf [c8, c9] = num2 c8 c9 := by
      simp [specNatOf, num2]
    constructor
    · rintro ⟨ymd, h⟩
      simp only [parseYMDList] at h
      split_ifs at h with h1 h2 h3
      simp only [Bool.and_eq_true] at h1
      obtain ⟨⟨⟨⟨⟨⟨⟨⟨⟨hy1, hy2⟩, hy3⟩, hy4⟩, hs1⟩, hm1⟩, hm2⟩, hs2⟩, hd1⟩, hd2⟩ := h1
      simp only [not_or, decide_eq_true_eq, Bool.or_eq_true, not_lt, not_le] at h2 h3
      have hs1c : c4 = '-' := by simpa using hs1
      have hs2c : c7 = '-' := by simpa using hs2
      simp only [specIsYMDList, specDigits, List.take, List.drop, List.all_cons,
        List.all_nil, List.length_cons, List.length_nil, Bool.and_eq_true, beq_iff_eq,
        decide_eq_true_eq, List.getElem?_cons_succ, List.getElem?_cons_zero,
        hym, hmm, hdm, hy1, hy2, hy3, hy4, hm1, hm2, hd1, hd2, hs1c, hs2c]
      simp only [and_true, true_and]
      rw [← daysIn_eq_specMonthLen _ _ h2.1 h2.2]
      exact ⟨⟨h2, h3.1⟩, h3.2⟩
    · intro hspec
      simp only [specIsYMDList, specDigits, List.take, List.drop, List.all_cons,
        List.all_nil, List.length_cons, List.length_nil, Bool.and_eq_true, beq_iff_eq,
        decide_eq_true_eq, List.getElem?_cons_succ, List.getElem?_cons_zero,
        hym, hmm, hdm] at hspec
      obtain ⟨⟨⟨⟨⟨⟨-, hs1'⟩, hs2'⟩, hy⟩, hm⟩, hd⟩, hnum⟩ := hspec
      obtain ⟨hy1, hy2, hy3, hy4, -⟩ := hy
      obtain ⟨hm1, hm2, -⟩ := hm
      obtain ⟨hd1, hd2, -⟩ := hd
      have hs1c : c4 = '-' := by simpa using hs1'
      have hs2c : c7 = '-' := by simpa using hs2'
      obtain ⟨⟨⟨hmlo, hmhi⟩, hdlo⟩, hdhi⟩ := hnum
      refine ⟨(100 * num2 c0 c1 + num2 c2 c3, num2 c5 c6, num2 c8 c9), ?_⟩
      simp only [parseYMDList]
      have hc1 : (c0.isDigit && c1.isDigit && c2.isDigit && c3.isDigit && c4 == '-' &&
          c5.isDigit && c6.isDigit && c7 == '-' && c8.isDigit && c9.isDigit) = true := by
        simp [hy1, hy2, hy3, hy4, hm1, hm2, hd1, hd2, hs1c, hs2c]
      rw [if_pos hc1]
      have hc2 : ¬ ((decide (num2 c5 c6 < 1) || decide (num2 c5 c6 > 12)) = true) := by
        simp
        omega
      have hc3 : ¬ ((decide (num2 c8 c9 < 1) || decide (num2 c8 c9 >
          daysIn (num2 c5 c6) (100 * num2 c0 c1 + num2 c2 c3))) = true) := by
        rw [daysIn_eq_specMonthLen _ _ hmlo hmhi]
        simp
        omega
      rw [if_neg hc2, if_neg hc3]
  all_goals simp [parseYMDList, specIsYMDList]

theorem parseYMDList_ok_val (cs : List Char) (y m d : Nat)
    (h : parseYMDList cs = Except.ok (y, m, d)) :
    y = specNatOf (cs.take 4) ∧ m = specNatOf ((cs.drop 5).take 2)
      ∧ d = specNatOf (cs.drop 8) := by
  rcases cs with _ | ⟨c0, _ | ⟨c1, _ | ⟨c2, _ | ⟨c3, _ | ⟨c4, _ | ⟨c5, _ | ⟨c6, _ | ⟨c7, _ | ⟨c8, _ | ⟨c9, _ | ⟨c10, rest⟩⟩⟩⟩⟩⟩⟩⟩⟩⟩⟩
  case cons.cons.cons.cons.cons.cons.cons.cons.cons.cons.nil =>
    have hym : specNatOf [c0, c1, c2, c3] = 100 * num2 c0 c1 + num2 c2 c3 := by
      simp [specNatOf, num2]
      ring
    have hmm : specNatOf [c5, c6] = num2 c5 c6 := by
      simp [specNatOf, num2]
    have hdm : specNatOf [c8, c9] = num2 c8 c9 := by
      simp [specNatOf, num2]
    simp only [parseYMDList] at h
    split_ifs at h with h1 h2 h3
    simp only [Except.ok.injEq, Prod.mk.injEq] at h
    obtain ⟨hy, hm, hd⟩ := h
    simp only [List.take, List.drop, hym, hmm, hdm]
    exact ⟨hy.symm, hm.symm, hd.symm⟩
  all_goals simp [parseYMDList] at h

/-- C6: `Date.UnmarshalJSON` (starting from the zero `Date`, as in a
fresh decode) succeeds exactly when the JSON value is a string literal
in well-formed `"YYYY-MM-DD"` form; on success it sets the `Date` to
that calendar date at 00:00:00 UTC (for `"2016-02-12"`, the instant
`1455235200`, i.e. 2016-02-12T00:00:00Z); on any other JSON shape
(non-string, or a malformed string) it returns the error and leaves the
receiver — in particular the zero value — unchanged. -/
theorem c6_date_unmarshal :
    (∀ j : Json, (Date.unmarshalJSON zeroDate j).2 = none
        ↔ ∃ s, j = Json.str s ∧ specIsYMD s = true)
  ∧ (∀ s : String, specIsYMD s = true →
      Date.unmarshalJSON zeroDate (Json.str s)
        = ({ time := mkDateUTC (specYMDof s).1 (specYMDof s).2.1 (specYMDof s).2.2 }, none))
  ∧ (∀ (d0 : Date) (j : Json), (Date.unmarshalJSON d0 j).2 ≠ none →
      (Date.unmarshalJSON d0 j).1 = d0)
  ∧ Date.unmarshalJSON zeroDate (Json.str "2016-02-12")
      = ({ time := { unixSec := 1455235200, offset := 0 } }, none) := by
  refine ⟨?_, ?_, ?_, by decide⟩
  · intro j
    cases j with
    | str s =>
      simp only [Date.unmarshalJSON, jsonUnmarshalString, parseYMD]
      constructor
      · intro h
        rcases hp : parseYMDList s.toList with e | ymd
        · rw [hp] at h
          simp at h
        · exact ⟨s, rfl, (parseYMDList_ok_iff s.toList).mp ⟨ymd, hp⟩⟩
      · rintro ⟨s', hs', hspec⟩
        cases hs'
        obtain ⟨ymd, hp⟩ := (parseYMDList_ok_iff s.toList).mpr hspec
        rw [hp]
    | null => simp [Date.unmarshalJSON, jsonUnmarshalString]
    | bool b => simp [Date.unmarshalJSON, jsonUnmarshalString]
    | num q => simp [Date.unmarshalJSON, jsonUnmarshalString]
    | arr xs => simp [Date.unmarshalJSON, jsonUnmarshalString]
    | obj fs => simp [Date.unmarshalJSON, jsonUnmarshalString]
  · intro s hspec
    obtain ⟨⟨y, m, d⟩, hp⟩ := (parseYMDList_ok_iff s.toList).mpr hspec
    obtain ⟨hvy, hvm, hvd⟩ := parseYMDList_ok_val s.toList y m d hp
    simp only [Date.unmarshalJSON, jsonUnmarshalString, parseYMD]
    rw [hp]
    simp only [specYMDof, ← hvy, ← hvm, ← hvd]
  · intro d0 j h
    cases j with
    | str s =>
      simp only [Date.unmarshalJSON, jsonUnmarshalString, parseYMD] at h ⊢
      rcases hp : parseYMDList s.toList with e | ymd
      · rfl
      · rcases ymd with ⟨y, m, d⟩
        have hp2 : parseYMDList s.data = Except.ok (y, m, d) := hp
        simp only [String.toList] at h
        rw [hp2] at h
        simp at h
    | null => rfl
    | bool b => rfl
    | num q => rfl
    | arr xs => rfl
    | obj fs => rfl

/-- C6 witness: the success case evaluated at `"2016-02-12"`. -/
theorem c6_witness :
    Date.unmarshalJSON zeroDate (Json.str "2016-02-12")
      = ({ time := mkDateUTC (specYMDof "2016-02-12").1 (specYMDof "2016-02-12").2.1
            (specYMDof "2016-02-12").2.2 }, none) :=
  c6_date_unmarshal.2.1 "2016-02-12" (by decide)

end Fixer
